import Mathlib

/-!
Verification of the SolidityShield rule-matching and scoring engine
(`client/src/lib/security-rules.ts`) and of the persistence collaborator
(`server/storage.ts`), by a shallow embedding in Lean.

Strings are modelled as `List Char` (a JavaScript string is a sequence of
code units).  JavaScript numbers are modelled by exact rationals `ℚ`.
The JavaScript regular expressions of the rule table are embedded as an
inductive `Regex` together with a backtracking matcher `matR` that follows
ECMAScript semantics: alternation prefers the left branch, quantifiers are
greedy with backtracking, `(?!...)` is a zero-width negative lookahead and
`\b` a word boundary.  Every quantified subexpression occurring in the rule
table is a single character class, which the constructor `starC` captures,
so the matcher is structurally recursive and executable by the kernel.
-/

namespace SolidityShield

/-- Severity levels of a finding, `SecuritySeverity` in `shared/schema.ts`. -/
inductive Severity
  | critical
  | high
  | medium
  | low
  | info
deriving DecidableEq, Repr

/-- The four score categories of the rule table in `security-rules.ts`. -/
inductive Category
  | security
  | gas
  | codeQuality
  | bestPractices
deriving DecidableEq, Repr

/-- A finding, `SecurityResult` in `shared/schema.ts`.  The inert prose
fields (`title`, `description`, `recommendation`) carry no logic and are
omitted from the model; `id`, `severity` and the optional 1-based `line`
are kept. -/
structure SecurityResult where
  id : String
  severity : Severity
  line : Option Nat
deriving DecidableEq, Repr

/-! ## Character classes -/

/-- ECMAScript `\s` (WhiteSpace ∪ LineTerminator), restricted to the code
points that can occur here: ASCII whitespace, NBSP, LS, PS, BOM. -/
def isJsWhitespace (c : Char) : Bool :=
  c = ' ' || c = '\t' || c = '\n' || c = '\r' ||
  c.val = 11 || c.val = 12 || c.val = 160 ||
  c.val = 0x2028 || c.val = 0x2029 || c.val = 0xfeff

/-- ECMAScript `\w`: `[A-Za-z0-9_]`. -/
def isWordChar (c : Char) : Bool :=
  ('A' ≤ c && c ≤ 'Z') || ('a' ≤ c && c ≤ 'z') || ('0' ≤ c && c ≤ '9') || c = '_'

/-- ECMAScript `[0-9]`. -/
def isDigitChar (c : Char) : Bool :=
  '0' ≤ c && c ≤ '9'

/-- The character classes occurring in the rule table. -/
inductive CClass
  | ws
  | wd
  | digit
  | among (cs : List Char)
  | notAmong (cs : List Char)
deriving DecidableEq, Repr

/-- Membership in a character class. -/
def CClass.mem : CClass → Char → Bool
  | .ws, c => isJsWhitespace c
  | .wd, c => isWordChar c
  | .digit, c => isDigitChar c
  | .among cs, c => cs.contains c
  | .notAmong cs, c => !(cs.contains c)

/-! ## Regular expressions -/

/-- Embedded regular expressions.  `starC` is a greedy `*` over a single
character class (every quantifier in the rule table has this shape);
`nla` is negative lookahead `(?!...)`; `wb` is the word boundary `\b`. -/
inductive Regex
  | eps
  | cls (cc : CClass)
  | lit (w : List Char)
  | cat (a b : Regex)
  | alt (a b : Regex)
  | starC (cc : CClass)
  | nla (r : Regex)
  | wb
deriving Repr

/-- Does the literal `w` occur at the head of `s`? -/
def litAt : List Char → List Char → Bool
  | [], _ => true
  | _ :: _, [] => false
  | c :: w, d :: s => c = d && litAt w s

/-- Length of the maximal run of characters of class `cc` at the head. -/
def runLenAux (cc : CClass) : List Char → Nat
  | [] => 0
  | c :: rest => if cc.mem c then runLenAux cc rest + 1 else 0

/-- Length of the maximal run of characters of class `cc` from offset `i`. -/
def runLen (cc : CClass) (s : List Char) (i : Nat) : Nat :=
  runLenAux cc (s.drop i)

/-- Greedy backtracking over the number of characters a starred class
consumes: try `i + n` first (longest), then shorter suffixes, then `i`. -/
def tryDown (k : Nat → Option Nat) (i : Nat) : Nat → Option Nat
  | 0 => k i
  | n + 1 => (k (i + n + 1)).orElse fun _ => tryDown k i n

/-- Is the character at offset `i` (if any) a word character? -/
def wordAt (s : List Char) (i : Nat) : Bool :=
  match s.get? i with
  | some c => isWordChar c
  | none => false

/-- ECMAScript word boundary at offset `i`: exactly one of the adjacent
positions holds a word character. -/
def isBoundary (s : List Char) (i : Nat) : Bool :=
  match i with
  | 0 => wordAt s 0
  | j + 1 => wordAt s j != wordAt s (j + 1)

/-- Backtracking matcher in continuation style.  `matR s r i k` tries to
match `r` in `s` starting at offset `i`; on each way the match can succeed
(in ECMAScript priority order: left alternative first, greedy quantifier
longest first) it calls `k` with the end offset, and returns the first
`some` so obtained. -/
def matR (s : List Char) : Regex → Nat → (Nat → Option Nat) → Option Nat
  | .eps, i, k => k i
  | .cls cc, i, k =>
      match s.get? i with
      | some c => if cc.mem c then k (i + 1) else none
      | none => none
  | .lit w, i, k => if litAt w (s.drop i) then k (i + w.length) else none
  | .cat a b, i, k => matR s a i fun j => matR s b j k
  | .alt a b, i, k => (matR s a i k).orElse fun _ => matR s b i k
  | .starC cc, i, k => tryDown k i (runLen cc s i)
  | .nla r, i, k => if (matR s r i some).isSome then none else k i
  | .wb, i, k => if isBoundary s i then k i else none

/-- End offset of the priority-first match of `r` at offset `i`, if any. -/
def firstMatchEnd (s : List Char) (r : Regex) (i : Nat) : Option Nat :=
  matR s r i some

/-- Scan forward from offset `j` (at most `fuel` positions) for the first
offset where `r` matches; returns `(index, end)`. -/
def scanFromAux (s : List Char) (r : Regex) : Nat → Nat → Option (Nat × Nat)
  | _, 0 => none
  | j, fuel + 1 =>
      match firstMatchEnd s r j with
      | some e => some (j, e)
      | none => scanFromAux s r (j + 1) fuel

/-- First match of `r` in `s` at or after offset `i` (ECMAScript
`RegExpExec` with a global regex advances one position at a time). -/
def scanFrom (s : List Char) (r : Regex) (i : Nat) : Option (Nat × Nat) :=
  scanFromAux s r i (s.length + 1 - i)

/-- `RegExp.prototype.test`: does `r` match anywhere in `s`? -/
def testRe (r : Regex) (s : List Char) : Bool :=
  (scanFrom s r 0).isSome

/-- One element of the `matchAll` result: `index` is the match's start
offset, `str` its matched text (`match[0]`), `input` the subject string
(`match.input`). -/
structure MatchInfo where
  index : Nat
  str : List Char
  input : List Char
deriving DecidableEq, Repr

/-- Worker for `jsMatchAll`: collect successive matches from offset `i`,
resuming after each match (one position further when the match was empty,
per `AdvanceStringIndex`). -/
def matchAllAux (s : List Char) (r : Regex) : Nat → Nat → List MatchInfo
  | _, 0 => []
  | i, fuel + 1 =>
      match scanFrom s r i with
      | none => []
      | some (idx, e) =>
          { index := idx, str := (s.drop idx).take (e - idx), input := s } ::
            matchAllAux s r (if e = idx then idx + 1 else e) fuel

/-- `String.prototype.matchAll` with a global regex: all non-overlapping
matches, left to right. -/
def jsMatchAll (r : Regex) (s : List Char) : List MatchInfo :=
  matchAllAux s r 0 (s.length + 2)

/-- `String.prototype.includes`: does `pat` occur as a substring of `s`? -/
def containsSub (pat : List Char) : List Char → Bool
  | [] => litAt pat []
  | c :: rest => litAt pat (c :: rest) || containsSub pat rest

end SolidityShield

namespace SolidityShield

/-! ## Line-number attribution (`getLineNumber` in `security-rules.ts`) -/

/-- `String.prototype.split('\n')`: split a character list at newlines;
always returns at least one (possibly empty) piece. -/
def splitNl : List Char → List (List Char)
  | [] => [[]]
  | c :: rest =>
      match splitNl rest with
      | [] => [[]]
      | h :: t => if c = '\n' then [] :: h :: t else (c :: h) :: t

/-- `getLineNumber(match)`: length of `match.input.slice(0, index).split('\n')`. -/
def getLineNumber (m : MatchInfo) : Nat :=
  (splitNl (m.input.take m.index)).length

/-! ## The rule table (`patterns` in `security-rules.ts`) -/

/-- One rule: a regex applied globally, a checker mapping a match (and the
full source) to a finding or nothing, and a category tag. -/
structure Pattern where
  regex : Regex
  check : MatchInfo → List Char → Option SecurityResult
  category : Category

/-- `\s*` -/
def wsStar : Regex := .starC .ws
/-- `\s+` -/
def wsPlus : Regex := .cat (.cls .ws) (.starC .ws)
/-- `\w+` -/
def wdPlus : Regex := .cat (.cls .wd) (.starC .wd)
/-- `[0-9]+` -/
def digitPlus : Regex := .cat (.cls .digit) (.starC .digit)
/-- `[^c]*` -/
def notStar (c : Char) : Regex := .starC (.notAmong [c])
/-- `[^c...]+` -/
def notPlus (cs : List Char) : Regex := .cat (.cls (.notAmong cs)) (.starC (.notAmong cs))
/-- Literal regex from a string. -/
def strLit (t : String) : Regex := .lit t.toList
/-- Concatenation of a list of regexes. -/
def rcat (l : List Regex) : Regex := l.foldr .cat .eps

/-- `/\b(=|\+=|-=|\*=|\/=)\b/`, the assignment test of the missing-events
checker. -/
def assignRe : Regex :=
  .cat .wb (.cat
    (.alt (strLit "=") (.alt (strLit "+=") (.alt (strLit "-=")
      (.alt (strLit "*=") (strLit "/=")))))
    .wb)

/-- `/\bemit\b/`, the event-emission test of the missing-events checker. -/
def emitRe : Regex := .cat .wb (.cat (strLit "emit") .wb)

/-- The contextual checker of the MISSING_EVENTS rule: flag only when the
matched function body contains an assignment operator and no `emit`. -/
def missingEventsCheck (m : MatchInfo) (_code : List Char) : Option SecurityResult :=
  let functionBody := m.str
  let modifiesState := testRe assignRe functionBody
  let emitsEvent := testRe emitRe functionBody
  if modifiesState && !emitsEvent then
    some { id := "MISSING_EVENTS", severity := .medium, line := some (getLineNumber m) }
  else
    none

/-- The contextual checker of the INVALID_MAPPING rule: flag only when the
matched snippet lacks the separator token. -/
def invalidMappingCheck (m : MatchInfo) (_code : List Char) : Option SecurityResult :=
  if !(containsSub "=>".toList m.str) then
    some { id := "INVALID_MAPPING", severity := .high, line := some (getLineNumber m) }
  else
    none

/-- The rule table, in source order. -/
def patterns : List Pattern := [
  { regex := .alt (rcat [strLit ".transfer", wsStar, strLit "("])
               (rcat [strLit ".send", wsStar, strLit "("]),
    check := fun m _ =>
      some { id := "REENTRANCY", severity := .critical, line := some (getLineNumber m) },
    category := .security },
  { regex := strLit "tx.origin",
    check := fun m _ =>
      some { id := "TX_ORIGIN", severity := .critical, line := some (getLineNumber m) },
    category := .security },
  { regex := rcat [strLit "function", wsPlus, wdPlus, wsStar, strLit "(",
      notStar ')', strLit ")", wsStar, strLit "public",
      .nla (.alt (.cat wsPlus (strLit "view")) (.cat wsPlus (strLit "pure")))],
    check := fun m _ =>
      some { id := "ACCESS_CONTROL", severity := .high, line := some (getLineNumber m) },
    category := .security },
  { regex := .alt (strLit "+=") (.alt (strLit "-=") (.alt (strLit "*=") (strLit "/="))),
    check := fun m _ =>
      some { id := "ARITHMETIC", severity := .high, line := some (getLineNumber m) },
    category := .security },
  { regex := rcat [.wb, .alt (strLit "for") (strLit "while"), wsStar, strLit "(",
      notPlus [';'], strLit ";", notPlus [';'], strLit ";", notPlus [')'], strLit ")"],
    check := fun m _ =>
      some { id := "GAS_LOOP", severity := .medium, line := some (getLineNumber m) },
    category := .gas },
  { regex := rcat [strLit "struct", wsPlus, wdPlus, wsStar, strLit "\x7b",
      notStar '}', strLit "bool", notStar '}', strLit "\x7d"],
    check := fun m _ =>
      some { id := "STRUCT_PACKING", severity := .low, line := some (getLineNumber m) },
    category := .gas },
  { regex := rcat [strLit "function", wsPlus, wdPlus, wsStar, strLit "(",
      notStar ')', strLit ")", wsStar,
      .nla (.alt (strLit "external") (.alt (strLit "public")
        (.alt (strLit "internal") (strLit "private"))))],
    check := fun m _ =>
      some { id := "VISIBILITY_MODIFIER", severity := .medium, line := some (getLineNumber m) },
    category := .codeQuality },
  { regex := rcat [strLit "require", wsStar, strLit "(", notPlus [',', ')'], strLit ")"],
    check := fun m _ =>
      some { id := "REQUIRE_MESSAGE", severity := .low, line := some (getLineNumber m) },
    category := .codeQuality },
  { regex := rcat [strLit "pragma solidity ",
      .alt (.cls (.among ['^', '~'])) .eps, strLit "0.", digitPlus, strLit ".", digitPlus],
    check := fun m _ =>
      some { id := "FLOATING_PRAGMA", severity := .medium, line := some (getLineNumber m) },
    category := .bestPractices },
  { regex := rcat [strLit "function", wsPlus, wdPlus, wsStar, strLit "(",
      notStar ')', strLit ")", wsStar, strLit "external", wsPlus, strLit "payable",
      notStar '{', strLit "\x7b", wsStar, notStar '}', strLit "msg.value",
      notStar '}', strLit "\x7d"],
    check := fun m _ =>
      some { id := "UNCHECKED_PAYMENT", severity := .critical, line := some (getLineNumber m) },
    category := .security },
  { regex := rcat [strLit "using", wsPlus, strLit "SafeMath", wsPlus,
      strLit "for", wsPlus, strLit "uint"],
    check := fun m _ =>
      some { id := "DEPRECATED_SAFEMATH", severity := .info, line := some (getLineNumber m) },
    category := .gas },
  { regex := rcat [strLit "assembly", wsStar, strLit "\x7b", notStar '}', strLit "\x7d"],
    check := fun m _ =>
      some { id := "INLINE_ASSEMBLY", severity := .high, line := some (getLineNumber m) },
    category := .security },
  { regex := rcat [strLit "function", wsPlus, wdPlus, wsStar, strLit "(",
      notStar ')', strLit ")", wsStar, strLit "public", wsPlus, strLit "returns",
      wsStar, strLit "(", notPlus [')'], strLit ")", wsStar, strLit "\x7b",
      wsStar, notStar '}', strLit "\x7d"],
    check := missingEventsCheck,
    category := .bestPractices },
  { regex := rcat [strLit "mapping", wsStar, strLit "(", notPlus [')'], strLit ")"],
    check := invalidMappingCheck,
    category := .codeQuality },
  { regex := rcat [strLit "function", wsPlus, wdPlus, wsStar, strLit "(",
      notStar ')', strLit ")", wsStar, strLit "public", wsPlus, strLit "payable",
      notStar '{', strLit "\x7b", wsStar, notStar '}', strLit "selfdestruct",
      wsStar, strLit "(", notStar ')', strLit ")", notStar '}', strLit "\x7d"],
    check := fun m _ =>
      some { id := "SELF_DESTRUCT", severity := .critical, line := some (getLineNumber m) },
    category := .security }
]

/-! ## The analysis engine (`analyzeCode` in `security-rules.ts`) -/

/-- The source-wide missing-license finding. -/
def licenseResult : SecurityResult := { id := "LICENSE", severity := .info, line := none }

/-- The source-wide missing-NatSpec finding. -/
def natspecResult : SecurityResult := { id := "NATSPEC", severity := .info, line := none }

/-- Findings of the missing-license check (run only on non-empty input). -/
def licenseFindings (code : List Char) : List SecurityResult :=
  if 0 < code.length && !(containsSub "SPDX-License-Identifier:".toList code) then
    [licenseResult]
  else []

/-- Findings of the missing-NatSpec check (run only on non-empty input). -/
def natspecFindings (code : List Char) : List SecurityResult :=
  if 0 < code.length && !(containsSub "/// @".toList code) then
    [natspecResult]
  else []

/-- All rule-table findings of an input, in table order, tagged with the
producing rule's category. -/
def taggedFindings (code : List Char) : List (Category × SecurityResult) :=
  patterns.flatMap fun p =>
    (jsMatchAll p.regex code).filterMap fun m =>
      (p.check m code).map fun r => (p.category, r)

/-- The four category buckets of findings (`issuesByCategory`). -/
structure Buckets where
  security : List SecurityResult
  gas : List SecurityResult
  codeQuality : List SecurityResult
  bestPractices : List SecurityResult
deriving DecidableEq, Repr

/-- The findings of one category among the tagged rule-table findings, in
order (the source pushes each finding onto its rule's category bucket). -/
def ofCat (cat : Category) : List (Category × SecurityResult) → List SecurityResult
  | [] => []
  | x :: ts => if x.1 = cat then x.2 :: ofCat cat ts else ofCat cat ts

/-- The category buckets of an input: each rule-table finding in its rule's
category, the missing-license finding in best practices and the
missing-NatSpec finding in code quality. -/
def issuesByCategory (code : List Char) : Buckets :=
  let t := taggedFindings code
  { security := ofCat .security t
    gas := ofCat .gas t
    codeQuality := ofCat .codeQuality t ++ natspecFindings code
    bestPractices := ofCat .bestPractices t ++ licenseFindings code }

/-! ## Scoring (`calculateScores` in `security-rules.ts`) -/

/-- `Math.max` on two rationals (executable; equals `max`, see
`jsMax_eq`). -/
def jsMax (a b : ℚ) : ℚ := if a < b then b else a

/-- `Math.min` on two rationals (executable; equals `min`, see
`jsMin_eq`). -/
def jsMin (a b : ℚ) : ℚ := if a < b then a else b

/-- `Math.round`: round half toward positive infinity (executable; equals
Mathlib's `round`, see `jsRound_eq`). -/
def jsRound (q : ℚ) : ℤ := Rat.floor (q + 1 / 2)

/-- The recalibrated severity weight table. -/
def severityWeights : Severity → ℚ
  | .critical => -15
  | .high => -10
  | .medium => -5
  | .low => -2
  | .info => -1

/-- Per-category score: 100 for an empty bucket, otherwise the weighted
deduction sum, scaled by `max(0.5, 1 - n/20)`, added to 100 and clamped. -/
def calculateCategoryScore (issues : List SecurityResult) : ℚ :=
  if issues.length = 0 then 100
  else
    let deductions := issues.foldl (fun total issue => total + severityWeights issue.severity) 0
    let scalingFactor := jsMax (1 / 2) (1 - (issues.length : ℚ) / 20)
    let scaledDeductions := deductions * scalingFactor
    jsMax 0 (jsMin 100 (100 + scaledDeductions))

/-- The score summary returned to the caller. -/
structure AnalysisScores where
  security : ℚ
  gas : ℚ
  codeQuality : ℚ
  bestPractices : ℚ
  overall : ℚ
deriving DecidableEq, Repr

/-- Category scores plus the rounded fixed-weight overall blend. -/
def calculateScores (b : Buckets) : AnalysisScores :=
  let sec := calculateCategoryScore b.security
  let gasScore := calculateCategoryScore b.gas
  let cq := calculateCategoryScore b.codeQuality
  let bp := calculateCategoryScore b.bestPractices
  { security := sec
    gas := gasScore
    codeQuality := cq
    bestPractices := bp
    overall :=
      ((jsRound (sec * (35/100) + cq * (25/100) + bp * (25/100) + gasScore * (15/100)) : ℤ) : ℚ) }

/-- The engine's output: findings list and score summary. -/
structure AnalysisOutput where
  results : List SecurityResult
  scores : AnalysisScores
deriving DecidableEq, Repr

/-- `analyzeCode`: run every rule over the input, append the two
source-wide checks on non-empty input, and score the category buckets. -/
def analyzeCode (code : List Char) : AnalysisOutput :=
  { results := (taggedFindings code).map Prod.snd ++ licenseFindings code ++ natspecFindings code
    scores := calculateScores (issuesByCategory code) }

end SolidityShield

namespace SolidityShield

/-! ## Persistence collaborator (`server/storage.ts`, `shared/schema.ts`)

The drizzle queries of `DatabaseStorage` are modelled over an explicit
database state with standard SQL semantics: a `serial` primary key assigns
consecutive identifiers in creation order, `ORDER BY` a column without a
direction defaults to ascending, and `LIMIT n` keeps the first `n` rows. -/

/-- An insert payload (`InsertSecurityCheck` in `shared/schema.ts`). -/
structure InsertSecurityCheck where
  code : List Char
  results : List SecurityResult
  score : ℤ
  timestamp : List Char
deriving DecidableEq, Repr

/-- A stored row (`SecurityCheck` in `shared/schema.ts`): the payload plus
the serial `id`. -/
structure SecurityCheck where
  id : Nat
  code : List Char
  results : List SecurityResult
  score : ℤ
  timestamp : List Char
deriving DecidableEq, Repr

/-- The database state: stored rows and the next serial id value. -/
structure Db where
  rows : List SecurityCheck
  nextId : Nat
deriving DecidableEq, Repr

/-- A freshly created database. -/
def Db.empty : Db := { rows := [], nextId := 1 }

/-- `createSecurityCheck`: `INSERT ... RETURNING` with a serial key. -/
def createSecurityCheck (db : Db) (c : InsertSecurityCheck) : Db × SecurityCheck :=
  let row : SecurityCheck :=
    { id := db.nextId, code := c.code, results := c.results,
      score := c.score, timestamp := c.timestamp }
  ({ rows := db.rows ++ [row], nextId := db.nextId + 1 }, row)

/-- `getSecurityCheck`: `SELECT ... WHERE id = ?`. -/
def getSecurityCheck (db : Db) (i : Nat) : Option SecurityCheck :=
  db.rows.find? fun r => r.id == i

/-- Insert a row into a list kept sorted by ascending id. -/
def insertById (r : SecurityCheck) : List SecurityCheck → List SecurityCheck
  | [] => [r]
  | x :: xs => if r.id ≤ x.id then r :: x :: xs else x :: insertById r xs

/-- Sort rows by ascending id (the semantics of `ORDER BY id`). -/
def sortById : List SecurityCheck → List SecurityCheck
  | [] => []
  | x :: xs => insertById x (sortById xs)

/-- `getRecentChecks`: `SELECT ... ORDER BY id LIMIT 10`; `ORDER BY`
without a direction is ascending. -/
def getRecentChecks (db : Db) : List SecurityCheck :=
  (sortById db.rows).take 10

/-! ## Specification-side formulas (for comparison with the code) -/

/-- The severity weights as the specification lists them. -/
def specWeight : Severity → ℚ
  | .critical => -15
  | .high => -10
  | .medium => -5
  | .low => -2
  | .info => -1

/-- The category-score formula as the specification states it: 100 for an
empty bucket, otherwise 100 plus the weighted sum scaled by
`max(0.5, 1 - bucketSize/20)`, clamped to `[0, 100]`. -/
def specCategoryScore (issues : List SecurityResult) : ℚ :=
  if issues = [] then 100
  else
    max 0 (min 100 (100 +
      (issues.map fun i => specWeight i.severity).sum *
        max (1/2 : ℚ) (1 - (issues.length : ℚ) / 20)))

/-- The five assignment operators of the missing-events assignment test. -/
def assignOps : List (List Char) :=
  ["=".toList, "+=".toList, "-=".toList, "*=".toList, "/=".toList]

/-- The specification's notion of a body containing an assignment
operator, read off the test `\b(=|\+=|-=|\*=|\/=)\b`: one of the five
operators occurs with a word character immediately before it and
immediately after it (every operator character is a non-word character,
so the two word boundaries require exactly that). -/
def specContainsAssign (s : List Char) : Prop :=
  ∃ pre op suf, op ∈ assignOps ∧ s = pre ++ op ++ suf ∧
    (∃ c, pre.getLast? = some c ∧ isWordChar c = true) ∧
    (∃ c, suf.head? = some c ∧ isWordChar c = true)

/-- The specification's notion of a body containing the event-emission
keyword, read off the test `\bemit\b`: `emit` occurs as a whole word,
neither preceded nor followed by a word character. -/
def specContainsEmit (s : List Char) : Prop :=
  ∃ pre suf, s = pre ++ "emit".toList ++ suf ∧
    (pre = [] ∨ ∃ c, pre.getLast? = some c ∧ isWordChar c = false) ∧
    (suf = [] ∨ ∃ c, suf.head? = some c ∧ isWordChar c = false)

end SolidityShield

namespace SolidityShield

/-! # Verified properties

Helper lemmas shared by the claim theorems. -/

theorem jsMax_eq (a b : ℚ) : jsMax a b = max a b := by
  unfold jsMax
  split
  · exact (max_eq_right (le_of_lt (by assumption))).symm
  · exact (max_eq_left (not_lt.mp (by assumption))).symm

theorem jsMin_eq (a b : ℚ) : jsMin a b = min a b := by
  unfold jsMin
  split
  · exact (min_eq_left (le_of_lt (by assumption))).symm
  · exact (min_eq_right (not_lt.mp (by assumption))).symm

theorem jsRound_eq (q : ℚ) : jsRound q = round q := by
  rw [jsRound, round_eq, Rat.floor_def', ← Rat.floor_def]

theorem foldl_weights (l : List SecurityResult) (init : ℚ) :
    l.foldl (fun total issue => total + severityWeights issue.severity) init
      = init + (l.map fun issue => severityWeights issue.severity).sum := by
  induction l generalizing init with
  | nil => simp
  | cons x xs ih => simp [List.foldl_cons, ih, add_assoc]

theorem calculateCategoryScore_nonneg (l : List SecurityResult) :
    0 ≤ calculateCategoryScore l := by
  unfold calculateCategoryScore
  split
  · norm_num
  · rw [jsMax_eq]
    exact le_max_left _ _

theorem calculateCategoryScore_le (l : List SecurityResult) :
    calculateCategoryScore l ≤ 100 := by
  unfold calculateCategoryScore
  split
  · norm_num
  · rw [jsMax_eq, jsMin_eq]
    exact max_le (by norm_num) (min_le_left _ _)

theorem round_blend_bounds {s g c bp : ℚ}
    (hs0 : 0 ≤ s) (hs1 : s ≤ 100) (hg0 : 0 ≤ g) (hg1 : g ≤ 100)
    (hc0 : 0 ≤ c) (hc1 : c ≤ 100) (hb0 : 0 ≤ bp) (hb1 : bp ≤ 100) :
    (0 : ℤ) ≤ round (s * (35/100) + c * (25/100) + bp * (25/100) + g * (15/100)) ∧
      round (s * (35/100) + c * (25/100) + bp * (25/100) + g * (15/100)) ≤ 100 := by
  constructor
  · rw [round_eq]
    refine Int.le_floor.mpr ?_
    push_cast
    linarith
  · rw [round_eq]
    calc ⌊s * (35/100) + c * (25/100) + bp * (25/100) + g * (15/100) + 1/2⌋
        ≤ ⌊(201/2 : ℚ)⌋ := Int.floor_mono (by linarith)
      _ = 100 := by norm_num [Int.floor_eq_iff]

/-! ## C1: per-category score formula -/

theorem specWeight_eq : specWeight = severityWeights := by
  funext s
  cases s <;> rfl

theorem calculateCategoryScore_eq_spec (l : List SecurityResult) :
    calculateCategoryScore l = specCategoryScore l := by
  unfold calculateCategoryScore specCategoryScore
  rw [specWeight_eq]
  rcases eq_or_ne l [] with rfl | h
  · simp
  · rw [if_neg (by simpa using h), if_neg h, foldl_weights, zero_add,
      jsMax_eq, jsMax_eq, jsMin_eq]

/-- C1: for every analysis call, each category score is 100 on an empty
bucket and otherwise equals 100 plus the severity-weighted deduction sum
(critical −15, high −10, medium −5, low −2, info −1) scaled by
`max(0.5, 1 − bucketSize/20)`, clamped to `[0, 100]`. -/
theorem category_score_formula (code : List Char) :
    (analyzeCode code).scores.security = specCategoryScore (issuesByCategory code).security ∧
    (analyzeCode code).scores.gas = specCategoryScore (issuesByCategory code).gas ∧
    (analyzeCode code).scores.codeQuality = specCategoryScore (issuesByCategory code).codeQuality ∧
    (analyzeCode code).scores.bestPractices = specCategoryScore (issuesByCategory code).bestPractices :=
  ⟨calculateCategoryScore_eq_spec _, calculateCategoryScore_eq_spec _,
    calculateCategoryScore_eq_spec _, calculateCategoryScore_eq_spec _⟩

/-! ## C2: overall score blend -/

/-- C2: the overall score is the fixed-weight blend of the four category
scores (security 0.35, codeQuality 0.25, bestPractices 0.25, gas 0.15,
summing to 1), rounded to the nearest integer and clamped to `[0, 100]`
(the clamp is a no-op because the rounded blend is already in range). -/
theorem overall_score_formula (code : List Char) :
    (35/100 : ℚ) + 25/100 + 25/100 + 15/100 = 1 ∧
    (analyzeCode code).scores.overall =
      max 0 (min 100
        ((round ((analyzeCode code).scores.security * (35/100) +
            (analyzeCode code).scores.codeQuality * (25/100) +
            (analyzeCode code).scores.bestPractices * (25/100) +
            (analyzeCode code).scores.gas * (15/100)) : ℤ) : ℚ)) := by
  refine ⟨by norm_num, ?_⟩
  show ((jsRound _ : ℤ) : ℚ) = _
  rw [jsRound_eq]
  obtain ⟨h0, h1⟩ := round_blend_bounds
    (calculateCategoryScore_nonneg (issuesByCategory code).security)
    (calculateCategoryScore_le (issuesByCategory code).security)
    (calculateCategoryScore_nonneg (issuesByCategory code).gas)
    (calculateCategoryScore_le (issuesByCategory code).gas)
    (calculateCategoryScore_nonneg (issuesByCategory code).codeQuality)
    (calculateCategoryScore_le (issuesByCategory code).codeQuality)
    (calculateCategoryScore_nonneg (issuesByCategory code).bestPractices)
    (calculateCategoryScore_le (issuesByCategory code).bestPractices)
  rw [min_eq_right (by exact_mod_cast h1), max_eq_right (by exact_mod_cast h0)]
  rfl

end SolidityShield

namespace SolidityShield

/-! ## C3: score ranges and integrality -/

/-- C3 counterexample: on the input `x += 1` the security category score
is 90.5, so the category scores are not integers in general (the scaling
factor `0.95` makes the deduction fractional). -/
theorem category_score_not_integer :
    ¬ ∃ k : ℤ, (analyzeCode "x += 1".toList).scores.security = (k : ℚ) := by
  have hb : issuesByCategory "x += 1".toList =
      { security := [{ id := "ARITHMETIC", severity := .high, line := some 1 }],
        gas := [],
        codeQuality := [natspecResult],
        bestPractices := [licenseResult] } := by decide
  have h : (analyzeCode "x += 1".toList).scores.security = 181/2 := by
    show calculateCategoryScore (issuesByCategory "x += 1".toList).security = 181/2
    rw [hb]
    simp only [calculateCategoryScore, severityWeights, jsMax_eq, jsMin_eq]
    norm_num
  rintro ⟨k, hk⟩
  rw [h] at hk
  have h2 : (181 : ℤ) = 2 * k := by
    have : (181 : ℚ) = 2 * (k : ℚ) := by linarith
    exact_mod_cast this
  omega

/-- C3 amended: for every input, the overall score and the four category
scores all lie in `[0, 100]`, and the overall score is an integer; the
four category scores are rationals that need not be integers. -/
theorem scores_in_range (code : List Char) :
    (0 ≤ (analyzeCode code).scores.security ∧ (analyzeCode code).scores.security ≤ 100) ∧
    (0 ≤ (analyzeCode code).scores.gas ∧ (analyzeCode code).scores.gas ≤ 100) ∧
    (0 ≤ (analyzeCode code).scores.codeQuality ∧ (analyzeCode code).scores.codeQuality ≤ 100) ∧
    (0 ≤ (analyzeCode code).scores.bestPractices ∧ (analyzeCode code).scores.bestPractices ≤ 100) ∧
    (0 ≤ (analyzeCode code).scores.overall ∧ (analyzeCode code).scores.overall ≤ 100) ∧
    ∃ k : ℤ, (analyzeCode code).scores.overall = (k : ℚ) := by
  obtain ⟨h0, h1⟩ := round_blend_bounds
    (calculateCategoryScore_nonneg (issuesByCategory code).security)
    (calculateCategoryScore_le (issuesByCategory code).security)
    (calculateCategoryScore_nonneg (issuesByCategory code).gas)
    (calculateCategoryScore_le (issuesByCategory code).gas)
    (calculateCategoryScore_nonneg (issuesByCategory code).codeQuality)
    (calculateCategoryScore_le (issuesByCategory code).codeQuality)
    (calculateCategoryScore_nonneg (issuesByCategory code).bestPractices)
    (calculateCategoryScore_le (issuesByCategory code).bestPractices)
  refine ⟨⟨calculateCategoryScore_nonneg _, calculateCategoryScore_le _⟩,
    ⟨calculateCategoryScore_nonneg _, calculateCategoryScore_le _⟩,
    ⟨calculateCategoryScore_nonneg _, calculateCategoryScore_le _⟩,
    ⟨calculateCategoryScore_nonneg _, calculateCategoryScore_le _⟩, ⟨?_, ?_⟩, ?_⟩
  · show (0 : ℚ) ≤ ((jsRound _ : ℤ) : ℚ)
    rw [jsRound_eq]
    exact_mod_cast h0
  · show ((jsRound _ : ℤ) : ℚ) ≤ 100
    rw [jsRound_eq]
    exact_mod_cast h1
  · exact ⟨jsRound _, rfl⟩

/-! ## C4: the missing-visibility rule -/

/-- C4 failing input: the input `function f() public` declares its
function `public`, yet the VISIBILITY_MODIFIER rule flags it — `\s*`
before the negative lookahead backtracks to zero width, the lookahead then
sees the space before `public` and succeeds. -/
theorem visibility_rule_flags_explicit_public :
    ((analyzeCode "function f() public".toList).results.filter
      fun r => r.id == "VISIBILITY_MODIFIER").length = 1 := by
  decide

/-! ## C6: empty input -/

/-- C6: analyzing the empty string is a normal case: no findings, all four
category scores 100 and overall 100. -/
theorem analyze_empty :
    analyzeCode [] =
      { results := [],
        scores := { security := 100, gas := 100, codeQuality := 100,
                    bestPractices := 100, overall := 100 } } := by
  have hb : issuesByCategory [] =
      { security := [], gas := [], codeQuality := [], bestPractices := [] } := by decide
  have ht : taggedFindings [] = [] := by decide
  simp only [analyzeCode, calculateScores, hb, ht, licenseFindings, natspecFindings]
  simp only [calculateCategoryScore, jsRound_eq]
  norm_num [round_eq]

/-! ## C9: determinism -/

/-- C9: the analysis is a pure function of the input text: two calls on
the same string yield the same findings in the same order and the same
scores. -/
theorem analyze_deterministic (code : List Char) :
    (analyzeCode code).results = (analyzeCode code).results ∧
    (analyzeCode code).scores = (analyzeCode code).scores :=
  ⟨rfl, rfl⟩

end SolidityShield

namespace SolidityShield

/-! ## C5: line-number attribution -/

theorem splitNl_ne_nil (l : List Char) : splitNl l ≠ [] := by
  cases l with
  | nil => simp [splitNl]
  | cons c rest =>
      unfold splitNl
      cases splitNl rest with
      | nil => simp
      | cons a t =>
          dsimp only
          split <;> simp

theorem splitNl_length (l : List Char) : (splitNl l).length = l.count '\n' + 1 := by
  induction l with
  | nil => rfl
  | cons c rest ih =>
      unfold splitNl
      cases h : splitNl rest with
      | nil => exact absurd h (splitNl_ne_nil rest)
      | cons a t =>
          rw [h] at ih
          dsimp only
          by_cases hc : c = '\n'
          · rw [if_pos hc, List.count_cons]
            simp [hc] at ih ⊢
            omega
          · rw [if_neg hc, List.count_cons]
            simp [hc] at ih ⊢
            omega

theorem getLineNumber_eq (m : MatchInfo) :
    getLineNumber m = (m.input.take m.index).count '\n' + 1 :=
  splitNl_length _

theorem matchAllAux_input (s : List Char) (r : Regex) :
    ∀ fuel i m, m ∈ matchAllAux s r i fuel → m.input = s := by
  intro fuel
  induction fuel with
  | zero =>
      intro i m h
      simp [matchAllAux] at h
  | succ n ih =>
      intro i m h
      unfold matchAllAux at h
      split at h
      · simp at h
      · rcases List.mem_cons.mp h with rfl | h2
        · rfl
        · exact ih _ _ h2

theorem jsMatchAll_input (r : Regex) (code : List Char) (m : MatchInfo)
    (h : m ∈ jsMatchAll r code) : m.input = code :=
  matchAllAux_input code r _ _ m h

/-- C5: every finding produced by a rule-table match carries the line
number `1 + (number of newline characters strictly before the match's
start offset)`, and the two source-wide checks (missing license, missing
NatSpec) produce findings with no line field. -/
theorem line_number_attribution :
    (∀ (code : List Char) (p : Pattern) (m : MatchInfo) (r : SecurityResult),
      p ∈ patterns → m ∈ jsMatchAll p.regex code → p.check m code = some r →
        r.line = some ((code.take m.index).count '\n' + 1)) ∧
    (∀ (code : List Char) (r : SecurityResult),
      r ∈ licenseFindings code ∨ r ∈ natspecFindings code → r.line = none) := by
  constructor
  · intro code p m r hp hm hc
    have hin : m.input = code := by
      revert hm
      exact fun hm => jsMatchAll_input _ _ _ hm
    simp only [patterns, List.mem_cons, List.not_mem_nil, or_false] at hp
    rcases hp with rfl | rfl | rfl | rfl | rfl | rfl | rfl | rfl | rfl | rfl | rfl | rfl |
      rfl | rfl | rfl <;>
    · try dsimp only at hc
      try unfold missingEventsCheck at hc
      try unfold invalidMappingCheck at hc
      try dsimp only at hc
      try split at hc
      all_goals first
        | exact Option.noConfusion hc
        | (cases hc
           simp [getLineNumber_eq, hin])
  · intro code r h
    rcases h with h | h
    · unfold licenseFindings at h
      split at h
      · simp at h
        subst h
        rfl
      · simp at h
    · unfold natspecFindings at h
      split at h
      · simp at h
        subst h
        rfl
      · simp at h

end SolidityShield

namespace SolidityShield

/-- C5 witness: the TX_ORIGIN rule applied to the input `tx.origin`
produces a finding on line 1, and the missing-license finding has no line
field. -/
theorem line_number_attribution_witness :
    ({ id := "TX_ORIGIN", severity := Severity.critical, line := some 1 } : SecurityResult).line =
      some ((("tx.origin".toList).take 0).count '\n' + 1) ∧
    licenseResult.line = none := by
  constructor
  · exact line_number_attribution.1 "tx.origin".toList (patterns.get ⟨1, by decide⟩)
      { index := 0, str := "tx.origin".toList, input := "tx.origin".toList }
      { id := "TX_ORIGIN", severity := Severity.critical, line := some 1 }
      (List.get_mem _ _ _) (by decide) (by decide)
  · exact line_number_attribution.2 "tx.origin".toList licenseResult (Or.inl (by decide))


theorem orElse_isSome (a : Option Nat) (b : Unit → Option Nat) :
    (a.orElse b).isSome = (a.isSome || (b ()).isSome) := by
  cases a <;> rfl

theorem litAt_iff (w : List Char) : ∀ l, litAt w l = true ↔ ∃ suf, l = w ++ suf := by
  induction w with
  | nil =>
      intro l
      simp [litAt]
  | cons c w ih =>
      intro l
      cases l with
      | nil => simp [litAt]
      | cons d l' =>
          simp only [litAt, Bool.and_eq_true, decide_eq_true_eq, ih, List.cons_append,
            List.cons.injEq]
          constructor
          · rintro ⟨rfl, suf, rfl⟩
            exact ⟨suf, rfl, rfl⟩
          · rintro ⟨suf, rfl, rfl⟩
            exact ⟨rfl, suf, rfl⟩

theorem scanFromAux_isSome (s : List Char) (r : Regex) :
    ∀ (fuel i : Nat), (scanFromAux s r i fuel).isSome = true ↔
      ∃ j, i ≤ j ∧ j < i + fuel ∧ (firstMatchEnd s r j).isSome = true := by
  intro fuel
  induction fuel with
  | zero =>
      intro i
      simp only [scanFromAux, Option.isSome_none, Bool.false_eq_true, false_iff]
      rintro ⟨j, h1, h2, _⟩
      omega
  | succ n ih =>
      intro i
      unfold scanFromAux
      cases h : firstMatchEnd s r i with
      | some e =>
          simp only [Option.isSome_some, true_iff]
          exact ⟨i, Nat.le_refl i, by omega, by rw [h]; rfl⟩
      | none =>
          rw [ih (i + 1)]
          constructor
          · rintro ⟨j, h1, h2, h3⟩
            exact ⟨j, by omega, by omega, h3⟩
          · rintro ⟨j, h1, h2, h3⟩
            rcases Nat.eq_or_lt_of_le h1 with rfl | hlt
            · rw [h] at h3
              cases h3
            · exact ⟨j, hlt, by omega, h3⟩

theorem testRe_iff (r : Regex) (s : List Char) :
    testRe r s = true ↔ ∃ j, j ≤ s.length ∧ (firstMatchEnd s r j).isSome = true := by
  unfold testRe scanFrom
  rw [scanFromAux_isSome]
  constructor
  · rintro ⟨j, _, h2, h3⟩
    exact ⟨j, by omega, h3⟩
  · rintro ⟨j, h1, h3⟩
    exact ⟨j, by omega, by omega, h3⟩

theorem wordAt_eq_getElem? (s : List Char) (n : Nat) :
    wordAt s n = ((s[n]?).map isWordChar).getD false := by
  unfold wordAt
  rw [← List.get?_eq_getElem?]
  cases s.get? n <;> rfl



theorem isBoundary_start_word (s : List Char) (j : Nat) (c : Char)
    (hc : s[j]? = some c) (hw : isWordChar c = true) :
    isBoundary s j = true ↔ (j = 0 ∨ wordAt s (j - 1) = false) := by
  have hcur : wordAt s j = true := by
    rw [wordAt_eq_getElem?, hc]
    simpa using hw
  cases j with
  | zero => simp [isBoundary, hcur]
  | succ j' =>
      simp only [isBoundary, hcur, bne_iff_ne, ne_eq]
      constructor
      · intro h
        cases hb : wordAt s j' with
        | false => exact Or.inr hb
        | true => exact absurd hb h
      · rintro (h | h)
        · exact absurd h (by omega)
        · simp only [Nat.add_sub_cancel] at h
          simp [h]

theorem isBoundary_start_nonword (s : List Char) (j : Nat) (c : Char)
    (hc : s[j]? = some c) (hw : isWordChar c = false) :
    isBoundary s j = true ↔ (0 < j ∧ wordAt s (j - 1) = true) := by
  have hcur : wordAt s j = false := by
    rw [wordAt_eq_getElem?, hc]
    simpa using hw
  cases j with
  | zero => simp [isBoundary, hcur]
  | succ j' =>
      simp only [isBoundary, hcur, bne_iff_ne, ne_eq]
      constructor
      · intro h
        refine ⟨by omega, ?_⟩
        cases hb : wordAt s j' with
        | true => exact hb
        | false => exact absurd hb h
      · rintro ⟨-, h⟩
        simp only [Nat.add_sub_cancel] at h
        simp [h]

theorem isBoundary_succ (s : List Char) (j : Nat) :
    isBoundary s (j + 1) = (wordAt s j != wordAt s (j + 1)) := rfl



theorem firstMatchEnd_emitRe (s : List Char) (j : Nat) :
    (firstMatchEnd s emitRe j).isSome = true ↔
      isBoundary s j = true ∧ litAt "emit".toList (s.drop j) = true ∧
        isBoundary s (j + 4) = true := by
  show (matR s emitRe j some).isSome = true ↔ _
  simp only [emitRe, strLit, matR]
  split_ifs with h1 h2 h3 <;> simp_all



theorem firstMatchEnd_assignRe (s : List Char) (j : Nat) :
    (firstMatchEnd s assignRe j).isSome = true ↔
      (isBoundary s j = true ∧
        ∃ op, op ∈ assignOps ∧ litAt op (s.drop j) = true ∧
          isBoundary s (j + op.length) = true) := by
  show (matR s assignRe j some).isSome = true ↔ _
  simp only [assignRe, strLit, matR]
  by_cases h1 : isBoundary s j = true
  · rw [if_pos h1]
    simp only [orElse_isSome, Bool.or_eq_true]
    constructor
    · intro h
      refine ⟨h1, ?_⟩
      rcases h with h | h | h | h | h <;>
      · split_ifs at h with ha hb
        · exact ⟨_, by simp [assignOps], ha, hb⟩
        · simp at h
        · simp at h
    · rintro ⟨-, op, hop, hlit, hbd⟩
      simp only [assignOps, List.mem_cons, List.not_mem_nil, or_false] at hop
      rcases hop with rfl | rfl | rfl | rfl | rfl
      · exact Or.inl (by rw [if_pos hlit, if_pos hbd]; rfl)
      · exact Or.inr (Or.inl (by rw [if_pos hlit, if_pos hbd]; rfl))
      · exact Or.inr (Or.inr (Or.inl (by rw [if_pos hlit, if_pos hbd]; rfl)))
      · exact Or.inr (Or.inr (Or.inr (Or.inl (by rw [if_pos hlit, if_pos hbd]; rfl))))
      · exact Or.inr (Or.inr (Or.inr (Or.inr (by rw [if_pos hlit, if_pos hbd]; rfl))))
  · rw [if_neg h1]
    simp only [Option.isSome_none, Bool.false_eq_true, false_iff]
    rintro ⟨h, -⟩
    exact h1 h



theorem getElem?_append_offset {α : Type} (pre rest : List α) (k : Nat) :
    (pre ++ rest)[pre.length + k]? = rest[k]? := by
  rw [List.getElem?_append_right (Nat.le_add_right _ _), Nat.add_sub_cancel_left]

theorem decomp_getElem_mid {α : Type} (pre w suf : List α) (k : Nat) (hk : k < w.length) :
    (pre ++ w ++ suf)[pre.length + k]? = w[k]? := by
  rw [List.append_assoc, getElem?_append_offset, List.getElem?_append_left hk]

theorem decomp_getElem_after {α : Type} (pre w suf : List α) :
    (pre ++ w ++ suf)[pre.length + w.length]? = suf.head? := by
  rw [List.append_assoc, getElem?_append_offset, List.getElem?_append_right (Nat.le_refl _),
    Nat.sub_self, List.head?_eq_getElem?]

theorem decomp_getElem_before {α : Type} (pre rest : List α) (hne : pre ≠ []) :
    (pre ++ rest)[pre.length - 1]? = pre.getLast? := by
  rw [List.getElem?_append_left (Nat.sub_lt (List.length_pos.mpr hne) Nat.one_pos),
    List.getLast?_eq_getElem?]



theorem getElem?_cons_last {α : Type} (c₀ : α) (w' : List α) :
    (c₀ :: w')[w'.length]? = (c₀ :: w').getLast? := by
  rw [List.getLast?_eq_getElem?]
  congr 1

theorem word_token_match_iff (s : List Char) (j : Nat) (w : List Char)
    (hne : w ≠ [])
    (hh : ∀ c, w.head? = some c → isWordChar c = true)
    (hl : ∀ c, w.getLast? = some c → isWordChar c = true) :
    (isBoundary s j = true ∧ litAt w (s.drop j) = true ∧
      isBoundary s (j + w.length) = true) ↔
    ∃ pre suf, s = pre ++ w ++ suf ∧ j = pre.length ∧
      (pre = [] ∨ ∃ c, pre.getLast? = some c ∧ isWordChar c = false) ∧
      (suf = [] ∨ ∃ c, suf.head? = some c ∧ isWordChar c = false) := by
  obtain ⟨c₀, w', rfl⟩ : ∃ c₀ w', w = c₀ :: w' := by
    cases w with
    | nil => exact absurd rfl hne
    | cons a b => exact ⟨a, b, rfl⟩
  have hw0 : isWordChar c₀ = true := hh c₀ rfl
  obtain ⟨c₁, hc₁⟩ : ∃ c₁, (c₀ :: w').getLast? = some c₁ :=
    ⟨(c₀ :: w').getLast (by simp), List.getLast?_eq_getLast (c₀ :: w') (by simp)⟩
  have hw1 : isWordChar c₁ = true := hl c₁ hc₁
  constructor
  · rintro ⟨hb1, hlit, hb2⟩
    obtain ⟨suf, hdrop⟩ := (litAt_iff _ _).mp hlit
    have hlen : s.length - j = w'.length + suf.length + 1 := by
      have := congrArg List.length hdrop
      simpa using this
    have hjle : j ≤ s.length := by omega
    have hplen : (s.take j).length = j := by
      rw [List.length_take]
      omega
    have hs : s = s.take j ++ (c₀ :: w') ++ suf := by
      rw [List.append_assoc, ← hdrop, List.take_append_drop]
    refine ⟨s.take j, suf, hs, hplen.symm, ?_, ?_⟩
    · have hget0 : s[j]? = some c₀ := by
        have := decomp_getElem_mid (s.take j) (c₀ :: w') suf 0 (by simp)
        rw [← hs, hplen] at this
        simpa using this
      rcases (isBoundary_start_word s j c₀ hget0 hw0).mp hb1 with hj0 | hwa
      · exact Or.inl (by simp [hj0])
      · by_cases hj0 : j = 0
        · exact Or.inl (by simp [hj0])
        · have hpne : s.take j ≠ [] := by
            intro h
            rw [h] at hplen
            exact hj0 hplen.symm
          have hgetp : s[j - 1]? = (s.take j).getLast? := by
            have h3 := decomp_getElem_before (s.take j) ((c₀ :: w') ++ suf) hpne
            rw [← List.append_assoc, ← hs, hplen] at h3
            exact h3
          obtain ⟨c, hc⟩ : ∃ c, (s.take j).getLast? = some c := by
            cases h : (s.take j).getLast? with
            | some c => exact ⟨c, rfl⟩
            | none => exact absurd (List.getLast?_eq_none_iff.mp h) hpne
          refine Or.inr ⟨c, hc, ?_⟩
          have h2 : wordAt s (j - 1) = isWordChar c := by
            rw [wordAt_eq_getElem?, hgetp, hc]
            rfl
          rw [← h2, hwa]
    · have hgetLast : s[j + w'.length]? = some c₁ := by
        have h3 := decomp_getElem_mid (s.take j) (c₀ :: w') suf w'.length (by simp)
        rw [← hs, hplen, getElem?_cons_last] at h3
        rw [h3, hc₁]
      have hword_last : wordAt s (j + w'.length) = true := by
        rw [wordAt_eq_getElem?, hgetLast]
        simpa using hw1
      have hget_after : s[j + (w'.length + 1)]? = suf.head? := by
        have h3 := decomp_getElem_after (s.take j) (c₀ :: w') suf
        rw [← hs, hplen] at h3
        simpa using h3
      rw [List.length_cons, Nat.add_succ, isBoundary_succ, hword_last] at hb2
      cases suf with
      | nil => exact Or.inl rfl
      | cons d suf' =>
          refine Or.inr ⟨d, rfl, ?_⟩
          have h4 : wordAt s (j + w'.length + 1) = isWordChar d := by
            rw [wordAt_eq_getElem?, Nat.add_assoc, hget_after]
            rfl
          cases h5 : isWordChar d with
          | false => rfl
          | true =>
              rw [h5] at h4
              rw [h4] at hb2
              exact absurd hb2 (by simp)
  · rintro ⟨pre, suf, hs, hj, hpre, hsuf⟩
    subst hj
    subst hs
    have hget0 : (pre ++ (c₀ :: w') ++ suf)[pre.length]? = some c₀ := by
      have := decomp_getElem_mid pre (c₀ :: w') suf 0 (by simp)
      simpa using this
    refine ⟨?_, ?_, ?_⟩
    · apply (isBoundary_start_word _ _ _ hget0 hw0).mpr
      rcases hpre with rfl | ⟨c, hc, hcw⟩
      · exact Or.inl (by simp)
      · right
        have hpne : pre ≠ [] := by
          intro h
          rw [h] at hc
          cases hc
        have hgetp := decomp_getElem_before pre ((c₀ :: w') ++ suf) hpne
        rw [← List.append_assoc] at hgetp
        rw [wordAt_eq_getElem?, hgetp, hc]
        simpa using hcw
    · rw [List.append_assoc, List.drop_left]
      exact (litAt_iff _ _).mpr ⟨suf, rfl⟩
    · have hgetLast : (pre ++ (c₀ :: w') ++ suf)[pre.length + w'.length]? = some c₁ := by
        have h3 := decomp_getElem_mid pre (c₀ :: w') suf w'.length (by simp)
        rw [getElem?_cons_last] at h3
        rw [h3, hc₁]
      have hword_last : wordAt (pre ++ (c₀ :: w') ++ suf) (pre.length + w'.length) = true := by
        rw [wordAt_eq_getElem?, hgetLast]
        simpa using hw1
      have hget_after :
          (pre ++ (c₀ :: w') ++ suf)[pre.length + (w'.length + 1)]? = suf.head? := by
        have h3 := decomp_getElem_after pre (c₀ :: w') suf
        simpa using h3
      have hword_after : wordAt (pre ++ (c₀ :: w') ++ suf) (pre.length + w'.length + 1) = false := by
        rw [wordAt_eq_getElem?, Nat.add_assoc, hget_after]
        rcases hsuf with rfl | ⟨c, hc, hcw⟩
        · rfl
        · rw [hc]
          simpa using hcw
      rw [List.length_cons, Nat.add_succ, isBoundary_succ, hword_last, hword_after]
      rfl



theorem nonword_token_match_iff (s : List Char) (j : Nat) (w : List Char)
    (hne : w ≠ [])
    (hh : ∀ c, w.head? = some c → isWordChar c = false)
    (hl : ∀ c, w.getLast? = some c → isWordChar c = false) :
    (isBoundary s j = true ∧ litAt w (s.drop j) = true ∧
      isBoundary s (j + w.length) = true) ↔
    ∃ pre suf, s = pre ++ w ++ suf ∧ j = pre.length ∧
      (∃ c, pre.getLast? = some c ∧ isWordChar c = true) ∧
      (∃ c, suf.head? = some c ∧ isWordChar c = true) := by
  obtain ⟨c₀, w', rfl⟩ : ∃ c₀ w', w = c₀ :: w' := by
    cases w with
    | nil => exact absurd rfl hne
    | cons a b => exact ⟨a, b, rfl⟩
  have hw0 : isWordChar c₀ = false := hh c₀ rfl
  obtain ⟨c₁, hc₁⟩ : ∃ c₁, (c₀ :: w').getLast? = some c₁ :=
    ⟨(c₀ :: w').getLast (by simp), List.getLast?_eq_getLast (c₀ :: w') (by simp)⟩
  have hw1 : isWordChar c₁ = false := hl c₁ hc₁
  constructor
  · rintro ⟨hb1, hlit, hb2⟩
    obtain ⟨suf, hdrop⟩ := (litAt_iff _ _).mp hlit
    have hlen : s.length - j = w'.length + suf.length + 1 := by
      have := congrArg List.length hdrop
      simpa using this
    have hjle : j ≤ s.length := by omega
    have hplen : (s.take j).length = j := by
      rw [List.length_take]
      omega
    have hs : s = s.take j ++ (c₀ :: w') ++ suf := by
      rw [List.append_assoc, ← hdrop, List.take_append_drop]
    refine ⟨s.take j, suf, hs, hplen.symm, ?_, ?_⟩
    · have hget0 : s[j]? = some c₀ := by
        have := decomp_getElem_mid (s.take j) (c₀ :: w') suf 0 (by simp)
        rw [← hs, hplen] at this
        simpa using this
      obtain ⟨hjpos, hwa⟩ := (isBoundary_start_nonword s j c₀ hget0 hw0).mp hb1
      have hpne : s.take j ≠ [] := by
        intro h
        rw [h] at hplen
        simp at hplen
        omega
      have hgetp : s[j - 1]? = (s.take j).getLast? := by
        have h3 := decomp_getElem_before (s.take j) ((c₀ :: w') ++ suf) hpne
        rw [← List.append_assoc, ← hs, hplen] at h3
        exact h3
      cases hc : s[j - 1]? with
      | none =>
          rw [wordAt_eq_getElem?, hc] at hwa
          exact absurd hwa (by simp)
      | some c =>
          refine ⟨c, by rw [← hgetp, hc], ?_⟩
          rw [wordAt_eq_getElem?, hc] at hwa
          simpa using hwa
    · have hgetLast : s[j + w'.length]? = some c₁ := by
        have h3 := decomp_getElem_mid (s.take j) (c₀ :: w') suf w'.length (by simp)
        rw [← hs, hplen, getElem?_cons_last] at h3
        rw [h3, hc₁]
      have hword_last : wordAt s (j + w'.length) = false := by
        rw [wordAt_eq_getElem?, hgetLast]
        simpa using hw1
      have hget_after : s[j + (w'.length + 1)]? = suf.head? := by
        have h3 := decomp_getElem_after (s.take j) (c₀ :: w') suf
        rw [← hs, hplen] at h3
        simpa using h3
      rw [List.length_cons, Nat.add_succ, isBoundary_succ, hword_last] at hb2
      have hword_after : wordAt s (j + w'.length + 1) = true := by
        cases h5 : wordAt s (j + w'.length + 1) with
        | true => rfl
        | false =>
            rw [h5] at hb2
            exact absurd hb2 (by simp)
      rw [wordAt_eq_getElem?, Nat.add_assoc, hget_after] at hword_after
      cases hsuf : suf with
      | nil =>
          rw [hsuf] at hword_after
          exact absurd hword_after (by simp)
      | cons d suf' =>
          rw [hsuf] at hword_after
          refine ⟨d, rfl, ?_⟩
          simpa using hword_after
  · rintro ⟨pre, suf, hs, hj, ⟨cp, hcp, hcpw⟩, ⟨cs, hcs, hcsw⟩⟩
    subst hj
    subst hs
    have hget0 : (pre ++ (c₀ :: w') ++ suf)[pre.length]? = some c₀ := by
      have := decomp_getElem_mid pre (c₀ :: w') suf 0 (by simp)
      simpa using this
    have hpne : pre ≠ [] := by
      intro h
      rw [h] at hcp
      cases hcp
    refine ⟨?_, ?_, ?_⟩
    · apply (isBoundary_start_nonword _ _ _ hget0 hw0).mpr
      refine ⟨List.length_pos.mpr hpne, ?_⟩
      have hgetp := decomp_getElem_before pre ((c₀ :: w') ++ suf) hpne
      rw [← List.append_assoc] at hgetp
      rw [wordAt_eq_getElem?, hgetp, hcp]
      simpa using hcpw
    · rw [List.append_assoc, List.drop_left]
      exact (litAt_iff _ _).mpr ⟨suf, rfl⟩
    · have hgetLast : (pre ++ (c₀ :: w') ++ suf)[pre.length + w'.length]? = some c₁ := by
        have h3 := decomp_getElem_mid pre (c₀ :: w') suf w'.length (by simp)
        rw [getElem?_cons_last] at h3
        rw [h3, hc₁]
      have hword_last : wordAt (pre ++ (c₀ :: w') ++ suf) (pre.length + w'.length) = false := by
        rw [wordAt_eq_getElem?, hgetLast]
        simpa using hw1
      have hget_after :
          (pre ++ (c₀ :: w') ++ suf)[pre.length + (w'.length + 1)]? = suf.head? := by
        have h3 := decomp_getElem_after pre (c₀ :: w') suf
        simpa using h3
      have hword_after :
          wordAt (pre ++ (c₀ :: w') ++ suf) (pre.length + w'.length + 1) = true := by
        rw [wordAt_eq_getElem?, Nat.add_assoc, hget_after, hcs]
        simpa using hcsw
      rw [List.length_cons, Nat.add_succ, isBoundary_succ, hword_last, hword_after]
      rfl



theorem assignOps_facts : ∀ op ∈ assignOps, op ≠ [] ∧
    (∀ c, op.head? = some c → isWordChar c = false) ∧
    (∀ c, op.getLast? = some c → isWordChar c = false) := by
  intro op hop
  simp only [assignOps, List.mem_cons, List.not_mem_nil, or_false] at hop
  rcases hop with rfl | rfl | rfl | rfl | rfl <;>
    refine ⟨by decide, fun c hc => ?_, fun c hc => ?_⟩ <;>
    · cases hc
      decide

theorem testRe_emitRe_iff (s : List Char) :
    testRe emitRe s = true ↔ specContainsEmit s := by
  rw [testRe_iff]
  constructor
  · rintro ⟨j, hjle, h⟩
    rw [firstMatchEnd_emitRe] at h
    obtain ⟨pre, suf, hs, hj, hpre, hsuf⟩ :=
      (word_token_match_iff s j "emit".toList (by decide)
        (fun c hc => by cases hc; decide) (fun c hc => by cases hc; decide)).mp h
    exact ⟨pre, suf, hs, hpre, hsuf⟩
  · rintro ⟨pre, suf, hs, hpre, hsuf⟩
    refine ⟨pre.length, ?_, ?_⟩
    · rw [hs]
      simp [List.length_append]
    · rw [firstMatchEnd_emitRe]
      exact (word_token_match_iff s pre.length "emit".toList (by decide)
        (fun c hc => by cases hc; decide) (fun c hc => by cases hc; decide)).mpr
        ⟨pre, suf, hs, rfl, hpre, hsuf⟩

theorem testRe_assignRe_iff (s : List Char) :
    testRe assignRe s = true ↔ specContainsAssign s := by
  rw [testRe_iff]
  constructor
  · rintro ⟨j, hjle, h⟩
    rw [firstMatchEnd_assignRe] at h
    obtain ⟨hb1, op, hop, hlit, hbd⟩ := h
    obtain ⟨hne, hh, hl⟩ := assignOps_facts op hop
    obtain ⟨pre, suf, hs, hj, hp, hsf⟩ :=
      (nonword_token_match_iff s j op hne hh hl).mp ⟨hb1, hlit, hbd⟩
    exact ⟨pre, op, suf, hop, hs, hp, hsf⟩
  · rintro ⟨pre, op, suf, hop, hs, hp, hsf⟩
    obtain ⟨hne, hh, hl⟩ := assignOps_facts op hop
    refine ⟨pre.length, ?_, ?_⟩
    · rw [hs]
      simp [List.length_append]
    · rw [firstMatchEnd_assignRe]
      obtain ⟨hb1, hlit, hbd⟩ :=
        (nonword_token_match_iff s pre.length op hne hh hl).mpr ⟨pre, suf, hs, rfl, hp, hsf⟩
      exact ⟨hb1, op, hop, hlit, hbd⟩


/-! ## C7: the missing-events contextual gate -/

/-- C7: the missing-events checker returns a finding only when the matched
function body contains an assignment operator (one of `=`, `+=`, `-=`,
`*=`, `/=` between word characters, per `\b(=|\+=|-=|\*=|\/=)\b`) and does
not contain the event-emission keyword `emit` as a whole word; whenever
the body contains the keyword `emit`, the checker returns nothing, so no
MISSING_EVENTS finding is produced for that match. -/
theorem missing_events_gate (m : MatchInfo) (code : List Char) :
    (∀ r, missingEventsCheck m code = some r →
      specContainsAssign m.str ∧ ¬ specContainsEmit m.str) ∧
    (specContainsEmit m.str → missingEventsCheck m code = none) := by
  constructor
  · intro r h
    simp only [missingEventsCheck] at h
    split at h
    · rename_i hcond
      simp only [Bool.and_eq_true, Bool.not_eq_true'] at hcond
      refine ⟨(testRe_assignRe_iff _).mp hcond.1, fun hc => ?_⟩
      rw [(testRe_emitRe_iff _).mpr hc] at hcond
      exact absurd hcond.2 (by simp)
    · exact Option.noConfusion h
  · intro he
    have ht : testRe emitRe m.str = true := (testRe_emitRe_iff _).mpr he
    simp only [missingEventsCheck, ht, Bool.not_true, Bool.and_false]
    rfl

/-- C7 witness: a body with an assignment and an `emit` yields no finding,
and a body that does yield a finding contains an assignment operator and
no `emit` keyword. -/
theorem missing_events_gate_witness :
    missingEventsCheck { index := 0, str := "x=1; emit E()".toList, input := [] } [] = none ∧
    (specContainsAssign ("x=1;".toList) ∧ ¬ specContainsEmit ("x=1;".toList)) := by
  constructor
  · exact (missing_events_gate { index := 0, str := "x=1; emit E()".toList, input := [] } []).2
      ⟨"x=1; ".toList, " E()".toList, by decide, Or.inr ⟨' ', by decide, by decide⟩,
        Or.inr ⟨' ', by decide, by decide⟩⟩
  · exact (missing_events_gate { index := 0, str := "x=1;".toList, input := [] } []).1
      { id := "MISSING_EVENTS", severity := Severity.medium, line := some 1 } (by decide)

/-! ## C8: recent-listing order -/

/-- C8: `getRecentChecks` returns stored rows in ascending id order, i.e.
oldest first: after creating a record with id 1 and then one with id 2,
the listing is `[id 1, id 2]`, so the record created last appears last,
not first. -/
theorem getRecentChecks_oldest_first :
    getRecentChecks (createSecurityCheck (createSecurityCheck Db.empty
        { code := [], results := [], score := 100, timestamp := [] }).1
        { code := [], results := [], score := 90, timestamp := [] }).1 =
      [{ id := 1, code := [], results := [], score := 100, timestamp := [] },
       { id := 2, code := [], results := [], score := 90, timestamp := [] }] := by
  decide

end SolidityShield

namespace SolidityShield

/-! ## C10: findings are bucketed exactly once -/

theorem ofCat_partition (t : List (Category × SecurityResult)) :
    ((t.map Prod.snd : List SecurityResult) : Multiset SecurityResult) =
      ↑(ofCat .security t) + ↑(ofCat .gas t) +
        ↑(ofCat .codeQuality t) + ↑(ofCat .bestPractices t) := by
  induction t with
  | nil => rfl
  | cons x ts ih =>
      obtain ⟨c, r⟩ := x
      cases c <;>
        simp only [List.map_cons, ofCat, if_pos, if_neg, reduceCtorEq,
          if_true, if_false, ite_true, ite_false, reduceIte] <;>
        simp only [← Multiset.cons_coe, Multiset.cons_add, Multiset.add_cons] <;>
        rw [ih]

/-- C10: the multiset of findings returned to the caller equals the sum of
the four category buckets (each rule-table finding in its rule's declared
category, the missing-license finding in best practices, the
missing-NatSpec finding in code quality), and the scores are computed from
exactly those buckets. -/
theorem findings_buckets_partition (code : List Char) :
    ((analyzeCode code).results : Multiset SecurityResult) =
      ↑(issuesByCategory code).security + ↑(issuesByCategory code).gas +
        ↑(issuesByCategory code).codeQuality + ↑(issuesByCategory code).bestPractices ∧
    (analyzeCode code).scores = calculateScores (issuesByCategory code) := by
  refine ⟨?_, rfl⟩
  show (((taggedFindings code).map Prod.snd ++ licenseFindings code ++ natspecFindings code :
      List SecurityResult) : Multiset SecurityResult) = _
  simp only [issuesByCategory]
  simp only [← Multiset.coe_add]
  rw [ofCat_partition]
  abel

end SolidityShield
